import Mathlib

/-!
Verification of the log-view core of the `prophet` repository
(`src/providers/LogsView.ts`).

The development shallowly embeds the code:

* the listing parser `parseResponse` (including the per-instance
  qualifier stripping regex `-blade\d{0,2}-\d{0,2}-appserver` with the
  `i` and `g` flags, modelled character by character with JS global
  leftmost-greedy replace semantics);
* the hostname-keyed client registry driven by configuration sources
  (`LogsView.initialize`), as a step function on an association list
  mirroring the JS `Map` operations used by the code;
* the tree model `getChildren`, the filter, and the sort
  (`Array.prototype.sort` with comparator
  `(a, b) => b.lastmodifed.getTime() - a.lastmodifed.getTime()`,
  modelled as a stable insertion sort);
* the command surface `openLog` / `cleanLog` as effect-producing
  functions, with the external collaborators (WebDAV transport,
  `timeago`, `Date` rendering, `vscode.Uri`) as function parameters.
-/

/-! ## Character and list utilities (JS string primitives) -/

/-- Decimal digit test, modelling the regex class `\d`. -/
def isDigitCh (c : Char) : Bool := '0' ≤ c && c ≤ '9'

/-- Case-insensitive character comparison, modelling the regex `i` flag. -/
def eqCI (a b : Char) : Bool := a.toLower == b.toLower

/-- Match a literal pattern `ps` case-insensitively at the head of `l`;
return the rest of `l` after the pattern on success. -/
def startsWithCI : List Char → List Char → Option (List Char)
  | [], l => some l
  | _ :: _, [] => none
  | p :: ps, c :: cs => if eqCI c p then startsWithCI ps cs else none

theorem startsWithCI_length (ps : List Char) :
    ∀ (l r : List Char), startsWithCI ps l = some r → ps.length + r.length = l.length := by
  induction ps with
  | nil =>
    intro l r h
    simp [startsWithCI] at h
    simp [h]
  | cons p ps ih =>
    intro l r h
    cases l with
    | nil => simp [startsWithCI] at h
    | cons c cs =>
      simp only [startsWithCI] at h
      split at h
      · have := ih cs r h
        simp [List.length_cons]
        omega
      · exact absurd h (by simp)

/-- Extend a full case-insensitive match to a prefix match on an
appended list. -/
theorem startsWithCI_append (ps : List Char) :
    ∀ (l rest : List Char), startsWithCI ps l = some [] →
      startsWithCI ps (l ++ rest) = some rest := by
  induction ps with
  | nil =>
    intro l rest h
    simp [startsWithCI] at h
    simp [h, startsWithCI]
  | cons p ps ih =>
    intro l rest h
    cases l with
    | nil => simp [startsWithCI] at h
    | cons c cs =>
      by_cases hc : eqCI c p = true
      · simp only [startsWithCI] at h ⊢
        rw [if_pos hc] at h ⊢
        exact ih cs rest h
      · simp [startsWithCI, hc] at h

/-- Exact (case-sensitive) prefix test, used for `String.includes`. -/
def isExactLead : List Char → List Char → Bool
  | [], _ => true
  | _ :: _, [] => false
  | p :: ps, c :: cs => c == p && isExactLead ps cs

/-- Case-sensitive substring test, modelling `String.prototype.includes`. -/
def hasSub (hay needle : List Char) : Bool :=
  match hay with
  | [] => needle.isEmpty
  | _ :: cs => isExactLead needle hay || hasSub cs needle

/-- Does the list contain a tab character? -/
def hasTab : List Char → Bool
  | [] => false
  | c :: cs => c == '\t' || hasTab cs

/-- Does the list contain two consecutive spaces? -/
def hasDoubleSpace : List Char → Bool
  | c :: c2 :: cs => (c == ' ' && c2 == ' ') || hasDoubleSpace (c2 :: cs)
  | _ => false

/-- Does the list start with a space? -/
def headIsSpace : List Char → Bool
  | [] => false
  | c :: _ => c == ' '

/-- Does the list end with a space? -/
def lastIsSpace : List Char → Bool
  | [] => false
  | [c] => c == ' '
  | _ :: c2 :: cs => lastIsSpace (c2 :: cs)

/-! ## The per-instance qualifier regex

`name.replace` with the regex `-blade\d{0,2}-\d{0,2}-appserver`
(flags `ig`) and replacement `''`, from `parseResponse`.  The scan
below reproduces JS global replace:
leftmost match, greedy bounded digit runs, continue after the
consumed match without rescanning earlier output.  (Because every
`\d{0,2}` is followed by a mandatory `-`, taking the maximal run of at
most two digits is equivalent to the backtracking semantics.) -/

/-- Letters of the literal `blade`. -/
def bladeChars : List Char := ['b', 'l', 'a', 'd', 'e']

/-- Letters of the literal `-appserver`. -/
def appserverChars : List Char := ['-', 'a', 'p', 'p', 's', 'e', 'r', 'v', 'e', 'r']

/-- Greedily drop up to two leading decimal digits (`\d{0,2}`). -/
def dropUpTo2Digits : List Char → List Char
  | [] => []
  | [c1] => if isDigitCh c1 then [] else [c1]
  | c1 :: c2 :: rest2 =>
    if isDigitCh c1 then (if isDigitCh c2 then rest2 else c2 :: rest2)
    else c1 :: c2 :: rest2

theorem dropUpTo2Digits_length (l : List Char) : (dropUpTo2Digits l).length ≤ l.length := by
  match l with
  | [] => simp [dropUpTo2Digits]
  | [c1] =>
    simp only [dropUpTo2Digits]
    split <;> simp
  | c1 :: c2 :: rest2 =>
    simp only [dropUpTo2Digits]
    split
    · split <;> (simp; try omega)
    · exact Nat.le_refl _

/-- Try to match `-blade\d{0,2}-\d{0,2}-appserver` (case-insensitively)
at the head of `l`; return the rest after the match. -/
def matchQualAt (l : List Char) : Option (List Char) :=
  match l with
  | '-' :: r1 =>
    match startsWithCI bladeChars r1 with
    | some r2 =>
      match dropUpTo2Digits r2 with
      | '-' :: r4 => startsWithCI appserverChars (dropUpTo2Digits r4)
      | _ => none
    | none => none
  | _ => none

theorem matchQualAt_length (l r : List Char) (h : matchQualAt l = some r) :
    r.length < l.length := by
  unfold matchQualAt at h
  split at h
  case h_2 => exact absurd h (by simp)
  case h_1 _ r1 =>
    split at h
    case h_2 => exact absurd h (by simp)
    case h_1 _ r2 hr2 =>
      split at h
      case h_2 => exact absurd h (by simp)
      case h_1 _ r4 hr4 =>
        have h2 := startsWithCI_length bladeChars r1 r2 hr2
        have h4 : r4.length < r2.length := by
          have := dropUpTo2Digits_length r2
          rw [hr4] at this
          simp [List.length_cons] at this
          omega
        have h5 := dropUpTo2Digits_length r4
        have h6 := startsWithCI_length appserverChars (dropUpTo2Digits r4) r h
        simp [bladeChars] at h2
        simp [appserverChars] at h6
        simp [List.length_cons]
        omega

/-- Fuelled scan implementing JS global replace of the qualifier regex
by the empty string.  Each step consumes at least one input character,
so any fuel of at least the input length computes the scan in full. -/
def stripQualFuel : Nat → List Char → List Char
  | 0, l => l
  | _ + 1, [] => []
  | fuel + 1, c :: cs =>
    match matchQualAt (c :: cs) with
    | some rest => stripQualFuel fuel rest
    | none => c :: stripQualFuel fuel cs

/-- JS global replace of the qualifier regex by the empty string, on
character lists. -/
def stripQualAux (l : List Char) : List Char := stripQualFuel l.length l

theorem stripQualFuel_nil (f : Nat) : stripQualFuel f [] = [] := by
  cases f <;> simp [stripQualFuel]

/-- The scan does not depend on the fuel, as long as the fuel covers
the input length. -/
theorem stripQualFuel_congr :
    ∀ (f : Nat) (l : List Char) (f' : Nat), l.length ≤ f → l.length ≤ f' →
      stripQualFuel f l = stripQualFuel f' l := by
  intro f
  induction f with
  | zero =>
    intro l f' hf _
    have : l = [] := List.length_eq_zero.mp (Nat.le_zero.mp hf)
    subst this
    simp [stripQualFuel_nil]
  | succ a ih =>
    intro l f' hf hf'
    cases l with
    | nil => simp [stripQualFuel_nil]
    | cons c cs =>
      cases f' with
      | zero => simp at hf'
      | succ b =>
        simp only [stripQualFuel]
        cases hm : matchQualAt (c :: cs) with
        | some rest =>
          have hlt := matchQualAt_length _ _ hm
          simp only [List.length_cons] at hf hf' hlt
          exact ih rest b (by omega) (by omega)
        | none =>
          simp only [List.length_cons] at hf hf'
          rw [ih cs b (by omega) (by omega)]

/-- The full qualifier-stripping replace applied to a `displayname`. -/
def stripQualifiers (s : String) : String := ⟨stripQualAux s.data⟩

example : stripQualifiers "error-blade1-2-appserver.log" = "error.log" := by decide
example : stripQualifiers "error-BLADE12-34-APPSERVER.log" = "error.log" := by decide
example : stripQualifiers "error-blade--appserver.log" = "error.log" := by decide
example : stripQualifiers "a-blade1-1-appserver-blade1-1-appserver.log" = "a.log" := by decide
example : stripQualifiers "access.log" = "access.log" := by decide

/-! ## JS primitives used by the code -/

/-- `String(x)` applied to a possibly-undefined string, as in
`String(href)` / `String(lastmodified)`. -/
def jsString : Option String → String
  | none => "undefined"
  | some s => s

/-- Result of the JS `Number(...)` conversion: either NaN or a numeric
value. -/
inductive JSNumber where
  | nan : JSNumber
  | num (q : Rat) : JSNumber
deriving DecidableEq

/-- JS whitespace for `Number` trimming. -/
def isSpaceCh (c : Char) : Bool := c == ' ' || c == '\t' || c == '\n' || c == '\r'

/-- Trim leading and trailing whitespace. -/
def trimWs (l : List Char) : List Char :=
  ((l.dropWhile isSpaceCh).reverse.dropWhile isSpaceCh).reverse

/-- Numeric value of a digit run. -/
def digitsVal (l : List Char) : Nat :=
  l.foldl (fun a c => a * 10 + (c.toNat - '0'.toNat)) 0

/-- Parse an unsigned decimal literal (digits, optional fraction), the
fragment of the JS `Number` grammar exercised by `getcontentlength`
values.  (Hex, exponent and `Infinity` forms are outside the modelled
domain and map to `none` = NaN.) -/
def parseUnsignedDec (l : List Char) : Option Rat :=
  let intPart := l.takeWhile isDigitCh
  let rest := l.dropWhile isDigitCh
  match rest with
  | [] => if intPart.isEmpty then none else some (digitsVal intPart)
  | '.' :: frac =>
    if frac.all isDigitCh && !(intPart.isEmpty && frac.isEmpty) then
      some ((digitsVal intPart : Rat) + (digitsVal frac : Rat) / ((10 : Rat) ^ frac.length))
    else none
  | _ => none

/-- `Number(x)` for `x : string | undefined`: `Number(undefined)` is
NaN, the empty (or all-whitespace) string converts to `0`, a decimal
literal converts to its value, anything else is NaN. -/
def jsNumber : Option String → JSNumber
  | none => JSNumber.nan
  | some s =>
    match trimWs s.data with
    | [] => JSNumber.num 0
    | '-' :: rest =>
      match parseUnsignedDec rest with
      | some q => JSNumber.num (-q)
      | none => JSNumber.nan
    | '+' :: rest =>
      match parseUnsignedDec rest with
      | some q => JSNumber.num q
      | none => JSNumber.nan
    | rest =>
      match parseUnsignedDec rest with
      | some q => JSNumber.num q
      | none => JSNumber.nan

example : jsNumber none = JSNumber.nan := by decide
example : jsNumber (some "123") = JSNumber.num 123 := by decide
example : jsNumber (some "12a") = JSNumber.nan := by decide

/-- Exact-match head test returning the rest, for the string-pattern
`String.prototype.replace`. -/
def exactLeadRest : List Char → List Char → Option (List Char)
  | [], l => some l
  | _ :: _, [] => none
  | p :: ps, c :: cs => if c == p then exactLeadRest ps cs else none

/-- `s.replace(pat, repl)` with a plain-string pattern: replace the
first occurrence only; if the pattern does not occur, the string is
unchanged. -/
def replaceFirstAux (pat repl : List Char) : List Char → List Char
  | [] =>
    match exactLeadRest pat [] with
    | some r => repl ++ r
    | none => []
  | c :: cs =>
    match exactLeadRest pat (c :: cs) with
    | some rest => repl ++ rest
    | none => c :: replaceFirstAux pat repl cs

/-- String-level wrapper for the first-occurrence replace. -/
def replaceFirst (s pat repl : String) : String := ⟨replaceFirstAux pat.data repl.data s.data⟩

example : replaceFirst "/on/demandware.servlet/webdav/Sites/Logs/error.log"
    "/on/demandware.servlet/webdav/Sites/Logs/" "" = "error.log" := by decide

/-- Suffix test on character lists. -/
def endsWithList (s p : List Char) : Bool := isExactLead p.reverse s.reverse

/-- `String.prototype.endsWith`. -/
def jsEndsWith (s p : String) : Bool := endsWithList s.data p.data

/-- Characters before the first `'.'`, i.e. `split('.').shift()`. -/
def firstLabel : List Char → List Char
  | [] => []
  | c :: cs => if c == '.' then [] else c :: firstLabel cs

/-- `hostname.split('.').shift() || 'noName'`: the first dot-separated
label of the hostname, defaulting to `noName` when it is empty (the
empty string is the only falsy value `split` can produce here). -/
def hostLabel (h : String) : String :=
  let first := firstLabel h.data
  if first.isEmpty then "noName" else ⟨first⟩

example : hostLabel "dev01.demandware.net" = "dev01" := by decide
example : hostLabel "" = "noName" := by decide

/-! ## The listing parser (`parseResponse`)

A multi-status `response` element is modelled by the four text fields
the code extracts with `getNodeText`; a field is `none` when the
element is missing or its text node is empty (`getNodeText` returns
`undefined` in both cases).  The XML DOM traversal itself is the
external `xmldom` collaborator. -/

structure ResponseEntry where
  displayname : Option String
  href : Option String
  getlastmodified : Option String
  getcontentlength : Option String
deriving DecidableEq

/-- Model of the `LogStatus` class.  `lastmodifed` holds the timestamp
of `new Date(String(lastmodified))` obtained from the `jsDate`
parameter (date parsing is the external `Date` collaborator);
`length` holds the `Number(contentlength)` conversion. -/
structure LogStatus where
  filename : String
  lastmodifed : Int
  filePath : String
  length : JSNumber
deriving DecidableEq

/-- `parseResponse`: keep entries whose displayname ends with `.log`,
strip the per-instance qualifier from the name, and read the other
fields through the JS conversions the code applies. -/
def parseResponse (jsDate : String → Int) (entries : List ResponseEntry) : List LogStatus :=
  entries.filterMap (fun response =>
    match response.displayname with
    | some name =>
      if jsEndsWith name ".log" then
        some { filename := stripQualifiers name
             , lastmodifed := jsDate (jsString response.getlastmodified)
             , filePath := jsString response.href
             , length := jsNumber response.getcontentlength }
      else none
    | none => none)

/-! ## The client registry (`LogsView.initialize`)

The `webdavClients` JS `Map` is modelled as an association list in
insertion order, with the `has` / `set` / `delete` operations the code
uses.  The registry value records, as ghost data, the identity of the
ConfigSource whose resolution constructed the client (the code stores
the `WebDav` object built at that resolution). -/

def jsMapHas {α : Type} (reg : List (String × α)) (h : String) : Bool :=
  reg.any (fun e => e.1 == h)

def jsMapGet {α : Type} (reg : List (String × α)) (h : String) : Option α :=
  (reg.find? (fun e => e.1 == h)).map (fun e => e.2)

def jsMapSet {α : Type} (reg : List (String × α)) (h : String) (v : α) : List (String × α) :=
  if jsMapHas reg h then reg.map (fun e => if e.1 == h then (h, v) else e)
  else reg ++ [(h, v)]

def jsMapDelete {α : Type} (reg : List (String × α)) (h : String) : List (String × α) :=
  reg.filter (fun e => e.1 != h)

/-- One lifecycle event: a ConfigSource (identified by `src`) resolves
a HostConfig with hostname `hostname`, or the cleanup action of that
source's subscription runs. -/
inductive RegEvent where
  | resolve (src : Nat) (hostname : String)
  | cleanup (src : Nat) (hostname : String)
deriving DecidableEq

/-- A resolved HostConfig for an already-registered hostname is
ignored; otherwise a client is created and registered. -/
def stepResolve (reg : List (String × Nat)) (src : Nat) (h : String) : List (String × Nat) :=
  if jsMapHas reg h then reg else jsMapSet reg h src

/-- The subscription cleanup closure: it deletes the hostname's entry
whenever one is present.  The closure captures only the hostname; the
`_src` argument records which subscription ran it and is not consulted,
exactly as in the code. -/
def stepCleanup (reg : List (String × Nat)) (_src : Nat) (h : String) : List (String × Nat) :=
  if jsMapHas reg h then jsMapDelete reg h else reg

def regStep (reg : List (String × Nat)) (e : RegEvent) : List (String × Nat) :=
  match e with
  | RegEvent.resolve src h => stepResolve reg src h
  | RegEvent.cleanup src h => stepCleanup reg src h

/-- Run a trace of lifecycle events from the empty registry. -/
def runEvents (evs : List RegEvent) : List (String × Nat) :=
  evs.foldl regStep []

/-- Number of registered clients for hostname `h`. -/
def countHost (h : String) (reg : List (String × Nat)) : Nat :=
  (reg.filter (fun e => e.1 == h)).length

/-! ## The tree model (`getChildren`, filter, sort) -/

/-- The per-host configuration carried by a `WebDav` client
(`config.hostname`, `config.root`). -/
structure DavConfig where
  hostname : String
  root : String
deriving DecidableEq

/-- Model of the `LogItem` tree node: the data fields the core logic
reads.  (Icon path and command wiring are UI concerns of the host
platform.) -/
structure LogItemM where
  name : String
  type : String
  location : String
  hostname : String
deriving DecidableEq

/-- `String.prototype.includes`, case-sensitive substring test. -/
def jsIncludes (s sub : String) : Bool := hasSub s.data sub.data

/-- The filename filter: applied only when the filter string is truthy
(non-empty). -/
def applyFilter (filter : String) (statuses : List LogStatus) : List LogStatus :=
  if filter ≠ "" then statuses.filter (fun status => jsIncludes status.filename filter)
  else statuses

/-- The comparator `(a, b) => b.lastmodifed.getTime() - a.lastmodifed.getTime()`
orders `a` before `b` when the comparator is non-positive, i.e. when
`b.lastmodifed ≤ a.lastmodifed`. -/
def timeDescRel (a b : LogStatus) : Prop := b.lastmodifed ≤ a.lastmodifed

instance : DecidableRel timeDescRel :=
  fun a b => inferInstanceAs (Decidable (b.lastmodifed ≤ a.lastmodifed))

instance : IsTotal LogStatus timeDescRel :=
  ⟨fun a b => le_total b.lastmodifed a.lastmodifed⟩

instance : IsTrans LogStatus timeDescRel :=
  ⟨fun _ _ _ hab hbc => le_trans hbc hab⟩

/-- `statuses.sort(comparator)`: JS `Array.prototype.sort` is stable;
it is modelled by stable insertion sort under `timeDescRel`. -/
def sortByTimeDesc (l : List LogStatus) : List LogStatus :=
  List.insertionSort timeDescRel l

/-- `new LogItem(status.filename, 'file', status.filePath, None, element.hostname)`. -/
def toFileItem (hostname : String) (status : LogStatus) : LogItemM :=
  { name := status.filename, type := "file", location := status.filePath, hostname := hostname }

/-- `new LogItem(hostLabel, 'host', hostname, Collapsed, hostname)` built
from a registered client's config. -/
def hostItem (cfg : DavConfig) : LogItemM :=
  { name := hostLabel cfg.hostname, type := "host", location := cfg.hostname
  , hostname := cfg.hostname }

/-- `LogsView.getChildren`.  `listings` stands for the per-host
`dirList` transport call (already decoded to response entries, the
`xmldom` collaborator); `jsDate` for `Date` parsing.  A thrown
`Error` is modelled as `Except.error` with the thrown message. -/
def getChildren (reg : List (String × DavConfig)) (filter : String)
    (jsDate : String → Int) (listings : String → List ResponseEntry)
    (element : Option LogItemM) : Except String (List LogItemM) :=
  if reg.isEmpty then Except.ok []
  else
    match element with
    | some el =>
      match jsMapGet reg el.hostname with
      | some _ =>
        Except.ok
          ((sortByTimeDesc (applyFilter filter (parseResponse jsDate (listings el.hostname)))).map
            (toFileItem el.hostname))
      | none => Except.error "Unable get webdav client"
    | none => Except.ok (reg.map (fun e => hostItem e.2))

/-! ## The command surface (`cleanLog`, `openLog`)

Commands are modelled as functions returning the list of observable
side effects they perform, in order.  Transport calls themselves are
inputs (`getResult` for `webdavClient.get`); a missing client produces
no effect at all, mirroring the `if (webdavClient) { ... }` guards
with no else branch. -/

inductive Effect where
  | post (path body : String)
  | showError (msg : String)
  | openDoc (content : String)
deriving DecidableEq

/-- The literal WebDAV prefix removed (first occurrence only) from the
item location before posting. -/
def davLogsRoot : String := "/on/demandware.servlet/webdav/Sites/Logs/"

/-- `LogsView.cleanLog`.  `now` is the rendering of `new Date()`. -/
def cleanLog (reg : List (String × DavConfig)) (item : LogItemM) (now : String) : List Effect :=
  match jsMapGet reg item.hostname with
  | some _ =>
    [Effect.post (replaceFirst item.location davLogsRoot "")
      ("log cleaned by prophet - " ++ now ++ "\n")]
  | none => []

/-! ## The log content transformer (`openLog` body)

Three replacement passes applied in order:

1. bracketed-timestamp relativization (regex `\[(.+? GMT)\] ` with
   flags `ig`; `rel` and `date` render the `timeago` annotation and
   the `Date` stringification of the captured group);
2. stack-frame path rewriting (regex `\tat (.*?):(.*?) \(` with flags
   `ig`; `uriS` renders `Uri.parse(join(root, ...segments)).toString()`);
3. double-space to newline (regex two-spaces, flags `ig`).

The lazy `.+?` and `.*?` groups stop at the earliest position where
the rest of the pattern matches, never cross a line terminator, and a
failed start position is re-scanned from its next character; the
replacement text is never re-scanned (JS global replace). -/

/-- Pattern ` GMT] ` (case-insensitive letters). -/
def gmtPat : List Char := [' ', 'g', 'm', 't', ']', ' ']

/-- Lazy search completing the match of `\[(.+? GMT)\] ` after the
opening bracket: returns the captured group and the rest after the
match. -/
def s1Find (acc : List Char) : List Char → Option (List Char × List Char)
  | [] => none
  | c :: cs =>
    match startsWithCI gmtPat (c :: cs) with
    | some rest =>
      if acc.isEmpty then
        (if c == '\n' || c == '\r' then none else s1Find (acc ++ [c]) cs)
      else some (acc ++ (c :: cs).take 4, rest)
    | none =>
      if c == '\n' || c == '\r' then none else s1Find (acc ++ [c]) cs

theorem s1Find_length :
    ∀ (l acc g rest : List Char), s1Find acc l = some (g, rest) → rest.length < l.length := by
  intro l
  induction l with
  | nil => intro acc g rest h; simp [s1Find] at h
  | cons c cs ih =>
    intro acc g rest h
    simp only [s1Find] at h
    split at h
    case h_1 _ rest6 hsw =>
      split at h
      · split at h
        · exact absurd h (by simp)
        · have := ih _ _ _ h
          simp [List.length_cons]; omega
      · have hl := startsWithCI_length gmtPat (c :: cs) rest6 hsw
        simp [gmtPat, List.length_cons] at hl
        simp only [Option.some.injEq, Prod.mk.injEq] at h
        rw [← h.2]
        simp [List.length_cons]
        omega
    case h_2 =>
      split at h
      · exact absurd h (by simp)
      · have := ih _ _ _ h
        simp [List.length_cons]; omega

/-- Fuelled scan for replacement pass 1 (timestamp relativization). -/
def s1Fuel (rel date : List Char → List Char) : Nat → List Char → List Char
  | 0, l => l
  | _ + 1, [] => []
  | fuel + 1, c :: cs =>
    if c == '[' then
      match s1Find [] cs with
      | some (g, rest) =>
        '\n' :: '\n' :: '[' :: (rel g ++ '/' :: (date g ++ ']' :: '\n' :: s1Fuel rel date fuel rest))
      | none => c :: s1Fuel rel date fuel cs
    else c :: s1Fuel rel date fuel cs

/-- Replacement pass 1 at full fuel. -/
def s1Scan (rel date : List Char → List Char) (l : List Char) : List Char :=
  s1Fuel rel date l.length l

/-- Pattern `at ` following the tab (case-insensitive letters). -/
def atPat : List Char := ['a', 't', ' ']

/-- `$1.split('/')`. -/
def splitSlash : List Char → List (List Char)
  | [] => [[]]
  | c :: cs =>
    if c == '/' then [] :: splitSlash cs
    else
      match splitSlash cs with
      | g :: gs => (c :: g) :: gs
      | [] => [[c]]

/-- `join(root, ...segments)` for the plain segment lists produced
here (path normalization of the external `path.join` is not exercised
by slash-separated frame paths). -/
def joinPath (root : List Char) (parts : List (List Char)) : List Char :=
  parts.foldl (fun acc p => acc ++ '/' :: p) root

/-- Is the head an opening parenthesis? -/
def headIsParen : List Char → Bool
  | '(' :: _ => true
  | _ => false

/-- Lazy search for the ` (` closing a stack-frame match: returns the
captured second group and the rest after ` (`. -/
def s2FindParen (acc : List Char) : List Char → Option (List Char × List Char)
  | [] => none
  | c :: cs =>
    if c == ' ' && headIsParen cs then some (acc, cs.tail)
    else if c == '\n' || c == '\r' then none
    else s2FindParen (acc ++ [c]) cs

theorem s2FindParen_length :
    ∀ (l acc p2 rest : List Char), s2FindParen acc l = some (p2, rest) → rest.length < l.length := by
  intro l
  induction l with
  | nil => intro acc p2 rest h; simp [s2FindParen] at h
  | cons c cs ih =>
    intro acc p2 rest h
    simp only [s2FindParen] at h
    split at h
    · simp only [Option.some.injEq, Prod.mk.injEq] at h
      rw [← h.2]
      have : cs.tail.length ≤ cs.length := by
        cases cs <;> simp
      simp [List.length_cons]
      omega
    · split at h
      · exact absurd h (by simp)
      · have := ih _ _ _ h
        simp [List.length_cons]; omega

/-- Lazy search for the `:` splitting a stack-frame match, with
backtracking into the second lazy group: returns both captured groups
and the rest after the full match. -/
def s2FindColon (acc : List Char) : List Char → Option (List Char × List Char × List Char)
  | [] => none
  | c :: cs =>
    if c == ':' then
      match s2FindParen [] cs with
      | some (p2, rest) => some (acc, p2, rest)
      | none => s2FindColon (acc ++ [c]) cs
    else if c == '\n' || c == '\r' then none
    else s2FindColon (acc ++ [c]) cs

theorem s2FindColon_length :
    ∀ (l acc p1 p2 rest : List Char),
      s2FindColon acc l = some (p1, p2, rest) → rest.length < l.length := by
  intro l
  induction l with
  | nil => intro acc p1 p2 rest h; simp [s2FindColon] at h
  | cons c cs ih =>
    intro acc p1 p2 rest h
    simp only [s2FindColon] at h
    split at h
    · split at h
      case h_1 _ p2x restx hpr =>
        simp only [Option.some.injEq, Prod.mk.injEq] at h
        have := s2FindParen_length cs [] p2x restx hpr
        rw [← h.2.2]
        simp [List.length_cons]
        omega
      case h_2 =>
        have := ih _ _ _ _ h
        simp [List.length_cons]; omega
    · split at h
      · exact absurd h (by simp)
      · have := ih _ _ _ _ h
        simp [List.length_cons]; omega

/-- Fuelled scan for replacement pass 2 (stack-frame path rewriting). -/
def s2Fuel (uriS : List Char → List Char) (root : List Char) : Nat → List Char → List Char
  | 0, l => l
  | _ + 1, [] => []
  | fuel + 1, c :: cs =>
    if c == '\t' then
      match startsWithCI atPat cs with
      | some r1 =>
        match s2FindColon [] r1 with
        | some (p1, p2, rest) =>
          '\t' :: 'a' :: 't' :: ' ' ::
            (uriS (joinPath root (splitSlash p1)) ++ '#' :: (p2 ++ ' ' :: '(' ::
              s2Fuel uriS root fuel rest))
        | none => c :: s2Fuel uriS root fuel cs
      | none => c :: s2Fuel uriS root fuel cs
    else c :: s2Fuel uriS root fuel cs

/-- Replacement pass 2 at full fuel. -/
def s2Scan (uriS : List Char → List Char) (root : List Char) (l : List Char) : List Char :=
  s2Fuel uriS root l.length l

/-- Replacement pass 3: every two-space occurrence becomes a newline
(non-overlapping, left to right). -/
def s3Scan : List Char → List Char
  | [] => []
  | [c] => [c]
  | c :: c2 :: cs =>
    if c == ' ' && c2 == ' ' then '\n' :: s3Scan cs
    else c :: s3Scan (c2 :: cs)

/-- The full `openLog` text transformation, in source order: timestamp
relativization, then stack-frame path rewriting, then double-space to
newline. -/
def transformLog (rel date uriS : List Char → List Char) (root : String)
    (filedata : String) : String :=
  ⟨s3Scan (s2Scan uriS root.data (s1Scan rel date filedata.data))⟩

/-- `LogsView.openLog`.  `getResult` is the outcome of the
`webdavClient.get` transport call; on success the transformed text is
shown in a document, on transport failure the error is reported. -/
def openLog (reg : List (String × DavConfig)) (rel date uriS : List Char → List Char)
    (getResult : Except String String) (item : LogItemM) : List Effect :=
  match jsMapGet reg item.hostname with
  | some cfg =>
    match getResult with
    | Except.ok filedata => [Effect.openDoc (transformLog rel date uriS cfg.root filedata)]
    | Except.error err => [Effect.showError err]
  | none => []

/-! ## Registry lemmas -/

theorem countHost_of_not_has (reg : List (String × Nat)) (hn : String)
    (h : jsMapHas reg hn = false) : countHost hn reg = 0 := by
  induction reg with
  | nil => rfl
  | cons e es ih =>
    simp only [jsMapHas, List.any_cons, Bool.or_eq_false_iff] at h
    simp only [countHost, List.filter_cons, h.1]
    exact ih (by simp [jsMapHas, h.2])

theorem countHost_append_self (reg : List (String × Nat)) (hn : String) (v : Nat) :
    countHost hn (reg ++ [(hn, v)]) = countHost hn reg + 1 := by
  simp [countHost, List.filter_append]

theorem countHost_other (reg : List (String × Nat)) (hn hn2 : String) (v : Nat)
    (h : (hn2 == hn) = false) : countHost hn (reg ++ [(hn2, v)]) = countHost hn reg := by
  simp [countHost, List.filter_append, h]

theorem countHost_delete (reg : List (String × Nat)) (hn : String) :
    countHost hn (jsMapDelete reg hn) = 0 := by
  induction reg with
  | nil => rfl
  | cons e es ih =>
    by_cases he : (e.1 == hn) = true
    · have hd : jsMapDelete (e :: es) hn = jsMapDelete es hn := by
        simp [jsMapDelete, List.filter_cons, bne, he]
      rw [hd]
      exact ih
    · have hf : (e.1 == hn) = false := by simpa using he
      have hd : jsMapDelete (e :: es) hn = e :: jsMapDelete es hn := by
        simp [jsMapDelete, List.filter_cons, bne, hf]
      rw [hd]
      simp only [countHost, List.filter_cons, hf, Bool.false_eq_true, if_false]
      exact ih

theorem countHost_filter_le (reg : List (String × Nat)) (hn : String)
    (p : String × Nat → Bool) : countHost hn (reg.filter p) ≤ countHost hn reg := by
  unfold countHost
  exact ((List.filter_sublist reg).filter _).length_le

theorem countHost_step_le (reg : List (String × Nat)) (e : RegEvent) (hn : String)
    (h : countHost hn reg ≤ 1) : countHost hn (regStep reg e) ≤ 1 := by
  cases e with
  | resolve src hn2 =>
    simp only [regStep, stepResolve]
    by_cases hh : jsMapHas reg hn2 = true
    · simp [hh, h]
    · simp only [Bool.not_eq_true] at hh
      simp only [hh, if_false, jsMapSet, Bool.false_eq_true]
      by_cases he : hn2 = hn
      · subst he
        rw [countHost_append_self, countHost_of_not_has reg hn2 hh]
      · rw [countHost_other reg hn hn2 src (by simp [he])]
        exact h
  | cleanup src hn2 =>
    simp only [regStep, stepCleanup]
    by_cases hh : jsMapHas reg hn2 = true
    · simp only [hh, if_true]
      by_cases he : hn2 = hn
      · subst he
        rw [countHost_delete]
        omega
      · exact le_trans (countHost_filter_le reg hn _) h
    · simp only [Bool.not_eq_true] at hh
      simp [hh, h]

theorem countHost_foldl_le (hn : String) :
    ∀ (evs : List RegEvent) (reg : List (String × Nat)), countHost hn reg ≤ 1 →
      countHost hn (List.foldl regStep reg evs) ≤ 1 := by
  intro evs
  induction evs with
  | nil => intro reg h; exact h
  | cons e es ih =>
    intro reg h
    exact ih (regStep reg e) (countHost_step_le reg e hn h)

theorem jsMapHas_delete (reg : List (String × Nat)) (hn : String) :
    jsMapHas (jsMapDelete reg hn) hn = false := by
  induction reg with
  | nil => rfl
  | cons e es ih =>
    simp only [jsMapDelete, List.filter_cons]
    by_cases he : e.1 == hn
    · rw [show (if (e.1 != hn) = true then e :: List.filter (fun x => x.1 != hn) es
          else List.filter (fun x => x.1 != hn) es) = List.filter (fun x => x.1 != hn) es by
        simp [bne, he]]
      exact ih
    · simp only [bne, he, Bool.not_false, if_true]
      simp only [jsMapHas, List.any_cons, he, Bool.false_or]
      exact ih

/-- C1: a ConfigSource resolution for an already-registered hostname
leaves the registry unchanged (the existing client is kept, nothing is
created, replaced or re-registered), and along every event trace the
registry holds at most one client per hostname. -/
theorem c1_unique_client_per_hostname :
    (∀ (reg : List (String × Nat)) (src : Nat) (hn : String),
        jsMapHas reg hn = true → stepResolve reg src hn = reg) ∧
    (∀ (evs : List RegEvent) (hn : String), countHost hn (runEvents evs) ≤ 1) := by
  constructor
  · intro reg src hn h
    simp [stepResolve, h]
  · intro evs hn
    exact countHost_foldl_le hn evs [] (by simp [countHost])

/-- C1 witness: a duplicate resolution for `a.com` is a no-op and the
two-source trace keeps a single client. -/
theorem c1_unique_client_per_hostname_witness :
    jsMapHas [("a.com", 0)] "a.com" = true ∧
    stepResolve [("a.com", 0)] 1 "a.com" = [("a.com", 0)] ∧
    countHost "a.com"
      (runEvents [RegEvent.resolve 0 "a.com", RegEvent.resolve 1 "a.com"]) ≤ 1 :=
  ⟨by decide, c1_unique_client_per_hostname.1 [("a.com", 0)] 1 "a.com" (by decide),
    c1_unique_client_per_hostname.2 [RegEvent.resolve 0 "a.com", RegEvent.resolve 1 "a.com"]
      "a.com"⟩

/-- C2 counterexample: source 0 resolves `a.com` first and is the
creator of the client; source 1 resolves the same hostname (no-op).
Running only source 1's cleanup — while source 0 was never cleaned
up — removes the client anyway, contradicting the claim that removal
is attributed to the creating source. -/
theorem c2_counterexample :
    runEvents [RegEvent.resolve 0 "a.com", RegEvent.resolve 1 "a.com"] = [("a.com", 0)] ∧
    runEvents [RegEvent.resolve 0 "a.com", RegEvent.resolve 1 "a.com",
      RegEvent.cleanup 1 "a.com"] = [] := by
  decide

/-- C2 amended: each subscription has one cleanup action and running
it twice is harmless (the second run is a no-op), but the cleanup is
not attributed: it removes the hostname's client whenever one is
present, regardless of which source created it. -/
theorem c2_cleanup_not_attributed :
    (∀ (reg : List (String × Nat)) (src creator : Nat) (hn : String),
        (hn, creator) ∈ reg → jsMapHas (stepCleanup reg src hn) hn = false) ∧
    (∀ (reg : List (String × Nat)) (src src2 : Nat) (hn : String),
        stepCleanup (stepCleanup reg src hn) src2 hn = stepCleanup reg src hn) := by
  constructor
  · intro reg src creator hn hmem
    have hh : jsMapHas reg hn = true := by
      simp only [jsMapHas, List.any_eq_true]
      exact ⟨(hn, creator), hmem, by simp⟩
    simp only [stepCleanup, hh, if_true]
    exact jsMapHas_delete reg hn
  · intro reg src src2 hn
    by_cases hh : jsMapHas reg hn = true
    · simp only [stepCleanup, hh, if_true, jsMapHas_delete, Bool.false_eq_true, if_false]
    · simp only [Bool.not_eq_true] at hh
      simp [stepCleanup, hh]

/-- C2 amended witness: cleanup by source 1 removes the client created
by source 0, and a repeated cleanup is a no-op. -/
theorem c2_cleanup_not_attributed_witness :
    ("a.com", 0) ∈ [("a.com", 0)] ∧
    jsMapHas (stepCleanup [("a.com", 0)] 1 "a.com") "a.com" = false ∧
    stepCleanup (stepCleanup [("a.com", 0)] 1 "a.com") 2 "a.com"
      = stepCleanup [("a.com", 0)] 1 "a.com" :=
  ⟨by decide, c2_cleanup_not_attributed.1 [("a.com", 0)] 1 0 "a.com" (by decide),
    c2_cleanup_not_attributed.2 [("a.com", 0)] 1 2 "a.com"⟩

/-! ## Claims about the command surface -/

/-- C3 counterexample: a file item whose remote location carries a
per-instance qualifier.  The single post goes to the location with the
WebDAV literal prefix removed, and that posted path still contains the
qualifier (stripping it would change the path), contradicting the
claim that the per-instance qualifier is stripped from the posted
path. -/
theorem c3_counterexample :
    cleanLog [("h1", { hostname := "h1", root := "/r" })]
      { name := "error.log", type := "file"
      , location := "/on/demandware.servlet/webdav/Sites/Logs/error-blade1-1-appserver.log"
      , hostname := "h1" } "T"
      = [Effect.post "error-blade1-1-appserver.log" "log cleaned by prophet - T\n"] ∧
    stripQualifiers "error-blade1-1-appserver.log" ≠ "error-blade1-1-appserver.log" := by
  decide

/-- C3 amended: for a file node whose hostname has an active client,
`cleanLog` issues exactly one post; its body is the literal
`log cleaned by prophet - ` followed by the timestamp rendering and a
newline; the posted path is the item location with the first
occurrence of the literal `/on/demandware.servlet/webdav/Sites/Logs/`
removed — the per-instance qualifier is not stripped. -/
theorem c3_one_post_with_prophet_body (reg : List (String × DavConfig)) (cfg : DavConfig)
    (item : LogItemM) (now : String)
    (hget : jsMapGet reg item.hostname = some cfg) :
    cleanLog reg item now =
      [Effect.post (replaceFirst item.location davLogsRoot "")
        ("log cleaned by prophet - " ++ now ++ "\n")] := by
  simp [cleanLog, hget]

/-- C3 witness: the amended statement evaluated on a registered host. -/
theorem c3_one_post_with_prophet_body_witness :
    jsMapGet [("h1", { hostname := "h1", root := "/r" : DavConfig })] "h1"
      = some { hostname := "h1", root := "/r" } ∧
    cleanLog [("h1", { hostname := "h1", root := "/r" })]
      { name := "error.log", type := "file"
      , location := "/on/demandware.servlet/webdav/Sites/Logs/error.log", hostname := "h1" } "T"
      = [Effect.post
          (replaceFirst "/on/demandware.servlet/webdav/Sites/Logs/error.log" davLogsRoot "")
          ("log cleaned by prophet - " ++ "T" ++ "\n")] :=
  ⟨by decide,
    c3_one_post_with_prophet_body [("h1", { hostname := "h1", root := "/r" })]
      { hostname := "h1", root := "/r" }
      { name := "error.log", type := "file"
      , location := "/on/demandware.servlet/webdav/Sites/Logs/error.log", hostname := "h1" }
      "T" (by decide)⟩

/-- C4 counterexample: with no client registered for `missing.com`,
`cleanLog` and `openLog` produce no effect at all — in particular no
user-visible error report — contradicting the claim that a
missing-client invocation reports an error. -/
theorem c4_counterexample :
    cleanLog [("other.com", { hostname := "other.com", root := "/" })]
      { name := "error.log", type := "file", location := "/x/error.log"
      , hostname := "missing.com" } "T" = [] ∧
    openLog [("other.com", { hostname := "other.com", root := "/" })]
      (fun l => l) (fun l => l) (fun l => l) (Except.ok "data")
      { name := "error.log", type := "file", location := "/x/error.log"
      , hostname := "missing.com" } = [] := by
  constructor
  · rfl
  · rfl

/-- C4 amended: with a non-empty registry, `getChildren` on an element
whose hostname has no client throws the reportable error
`Unable get webdav client`; `openLog` and `cleanLog` on such an
element silently do nothing (no transport call, no error report, no
crash — the operations are total). -/
theorem c4_missing_client_behaviour :
    (∀ (reg : List (String × DavConfig)) (filter : String) (jsDate : String → Int)
        (listings : String → List ResponseEntry) (el : LogItemM),
        reg ≠ [] → jsMapGet reg el.hostname = none →
        getChildren reg filter jsDate listings (some el)
          = Except.error "Unable get webdav client") ∧
    (∀ (reg : List (String × DavConfig)) (item : LogItemM) (now : String),
        jsMapGet reg item.hostname = none → cleanLog reg item now = []) ∧
    (∀ (reg : List (String × DavConfig)) (rel date uriS : List Char → List Char)
        (getResult : Except String String) (item : LogItemM),
        jsMapGet reg item.hostname = none → openLog reg rel date uriS getResult item = []) := by
  refine ⟨?_, ?_, ?_⟩
  · intro reg filter jsDate listings el hne hget
    have : reg.isEmpty = false := by
      cases reg with
      | nil => exact absurd rfl hne
      | cons e es => rfl
    simp [getChildren, this, hget]
  · intro reg item now hget
    simp [cleanLog, hget]
  · intro reg rel date uriS getResult item hget
    simp [openLog, hget]

/-- C4 witness: the amended statement evaluated with one registered
host and an element for an unregistered hostname. -/
theorem c4_missing_client_behaviour_witness :
    ([("other.com", { hostname := "other.com", root := "/" : DavConfig })] ≠
      ([] : List (String × DavConfig))) ∧
    jsMapGet [("other.com", { hostname := "other.com", root := "/" : DavConfig })] "missing.com"
      = none ∧
    getChildren [("other.com", { hostname := "other.com", root := "/" })] "" (fun _ => 0)
      (fun _ => [])
      (some { name := "n", type := "host", location := "missing.com", hostname := "missing.com" })
      = Except.error "Unable get webdav client" ∧
    cleanLog [("other.com", { hostname := "other.com", root := "/" })]
      { name := "n", type := "host", location := "missing.com", hostname := "missing.com" } "T"
      = [] :=
  ⟨by decide, by decide,
    c4_missing_client_behaviour.1 [("other.com", { hostname := "other.com", root := "/" })] ""
      (fun _ => 0) (fun _ => [])
      { name := "n", type := "host", location := "missing.com", hostname := "missing.com" }
      (by decide) (by decide),
    c4_missing_client_behaviour.2.1 [("other.com", { hostname := "other.com", root := "/" })]
      { name := "n", type := "host", location := "missing.com", hostname := "missing.com" } "T"
      (by decide)⟩

/-! ## Claims about the listing parser -/

/-- C6 counterexample: an entry with a `.log` displayname and no
`getcontentlength` yields a descriptor whose size is `Number(undefined)`
= NaN — not `0` as the claim states. -/
theorem c6_counterexample :
    (parseResponse (fun _ => 0)
      [{ displayname := some "error.log", href := some "/x", getlastmodified := none
       , getcontentlength := none }]).map (fun st => st.length) = [JSNumber.nan] ∧
    JSNumber.nan ≠ JSNumber.num 0 := by
  decide

/-- C6 amended: a missing `getcontentlength` yields a descriptor size
of NaN (the `Number(undefined)` conversion), and a non-numeric string
likewise converts to NaN; NaN is distinct from the numeric size `0`
(only the empty or all-whitespace string converts to `0`). -/
theorem c6_missing_length_is_nan (jsDate : String → Int) (name : String)
    (href lm : Option String) (es : List ResponseEntry)
    (hlog : jsEndsWith name ".log" = true) :
    parseResponse jsDate
      ({ displayname := some name, href := href, getlastmodified := lm
       , getcontentlength := none } :: es)
      = { filename := stripQualifiers name, lastmodifed := jsDate (jsString lm)
        , filePath := jsString href, length := JSNumber.nan } :: parseResponse jsDate es ∧
    jsNumber (some "not a number") = JSNumber.nan ∧
    JSNumber.nan ≠ JSNumber.num 0 := by
  refine ⟨?_, by decide, by decide⟩
  simp [parseResponse, hlog, jsNumber]

/-- C6 witness: the amended statement evaluated on a concrete entry. -/
theorem c6_missing_length_is_nan_witness :
    jsEndsWith "error.log" ".log" = true ∧
    (parseResponse (fun _ => 0)
      [{ displayname := some "error.log", href := some "/x", getlastmodified := none
       , getcontentlength := none }]
      = [{ filename := stripQualifiers "error.log", lastmodifed := (fun (_ : String) => (0 : Int)) (jsString none)
         , filePath := jsString (some "/x"), length := JSNumber.nan }] ∧
      jsNumber (some "not a number") = JSNumber.nan ∧
      JSNumber.nan ≠ JSNumber.num 0) :=
  ⟨by decide,
    c6_missing_length_is_nan (fun _ => 0) "error.log" (some "/x") none [] (by decide)⟩

/-- C7 counterexample: an entry with a `.log` displayname but no
`href` is not dropped — it produces a descriptor whose remote path is
the string `undefined` (the `String(undefined)` conversion). -/
theorem c7_counterexample :
    parseResponse (fun _ => 0)
      [{ displayname := some "error.log", href := none, getlastmodified := none
       , getcontentlength := none }]
      = [{ filename := "error.log", lastmodifed := 0, filePath := "undefined"
         , length := JSNumber.nan }] ∧
    ([{ filename := "error.log", lastmodifed := 0, filePath := "undefined"
      , length := JSNumber.nan }] : List LogStatus) ≠ [] := by
  decide

/-- C7 amended: entries with a missing displayname are dropped and do
not disturb the rest of the parse; entries with a missing `href` but a
`.log` displayname are retained with remote path `undefined`, again
without affecting the remaining entries; the parse is total, so a
malformed entry never makes it fail. -/
theorem c7_malformed_entries (jsDate : String → Int) (e : ResponseEntry) (name : String)
    (lm cl : Option String) (es : List ResponseEntry) :
    (e.displayname = none → parseResponse jsDate (e :: es) = parseResponse jsDate es) ∧
    (jsEndsWith name ".log" = true →
      parseResponse jsDate
        ({ displayname := some name, href := none, getlastmodified := lm
         , getcontentlength := cl } :: es)
        = { filename := stripQualifiers name, lastmodifed := jsDate (jsString lm)
          , filePath := "undefined", length := jsNumber cl } :: parseResponse jsDate es) := by
  constructor
  · intro hd
    simp [parseResponse, hd]
  · intro hlog
    simp [parseResponse, hlog, jsString]

/-- C7 witness: the amended statement evaluated on concrete malformed
entries. -/
theorem c7_malformed_entries_witness :
    parseResponse (fun _ => 0)
      [{ displayname := none, href := some "/y", getlastmodified := none
       , getcontentlength := none }] = parseResponse (fun _ => 0) [] ∧
    parseResponse (fun _ => 0)
      [{ displayname := some "error.log", href := none, getlastmodified := none
       , getcontentlength := some "7" }]
      = [{ filename := stripQualifiers "error.log"
         , lastmodifed := (fun (_ : String) => (0 : Int)) (jsString none)
         , filePath := "undefined", length := jsNumber (some "7") }] :=
  ⟨(c7_malformed_entries (fun _ => 0)
      { displayname := none, href := some "/y", getlastmodified := none
      , getcontentlength := none } "error.log" none (some "7") []).1 rfl,
    (c7_malformed_entries (fun _ => 0)
      { displayname := none, href := some "/y", getlastmodified := none
      , getcontentlength := none } "error.log" none (some "7") []).2 (by decide)⟩

/-! ## Claims about the tree model -/

/-- C10: with an empty client registry, `getChildren` returns the
empty list for every argument — also for host or file elements — so
the missing-client error branch is never reached and no error is
thrown or reported. -/
theorem c10_empty_registry_returns_empty (filter : String) (jsDate : String → Int)
    (listings : String → List ResponseEntry) (element : Option LogItemM) :
    getChildren [] filter jsDate listings element = Except.ok [] := by
  simp [getChildren, List.isEmpty]

/-- A three-element descending-sorted rearrangement is unique when the
three timestamps are strictly increasing. -/
theorem sortByTimeDesc_three (l : List LogStatus) (sa sb sc : LogStatus)
    (hperm : l.Perm [sa, sb, sc])
    (hab : sa.lastmodifed < sb.lastmodifed) (hbc : sb.lastmodifed < sc.lastmodifed) :
    sortByTimeDesc l = [sc, sb, sa] := by
  have hac : sa.lastmodifed < sc.lastmodifed := lt_trans hab hbc
  have hp : (sortByTimeDesc l).Perm [sa, sb, sc] :=
    (List.perm_insertionSort timeDescRel l).trans hperm
  have hs : List.Sorted timeDescRel (sortByTimeDesc l) :=
    List.sorted_insertionSort timeDescRel l
  have hlen : (sortByTimeDesc l).length = 3 := by rw [hp.length_eq]; rfl
  obtain ⟨a, b, c, habc⟩ := List.length_eq_three.mp hlen
  rw [habc] at hp hs ⊢
  have hnab : sa ≠ sb := fun h => absurd hab (by rw [h]; exact lt_irrefl _)
  have hnbc : sb ≠ sc := fun h => absurd hbc (by rw [h]; exact lt_irrefl _)
  have hnac : sa ≠ sc := fun h => absurd hac (by rw [h]; exact lt_irrefl _)
  have hndS : ([sa, sb, sc] : List LogStatus).Nodup := by
    simp [List.nodup_cons, hnab, hnac, hnbc]
  have hnd : ([a, b, c] : List LogStatus).Nodup := hp.nodup_iff.mpr hndS
  rw [List.sorted_cons] at hs
  obtain ⟨hfst, hs2⟩ := hs
  rw [List.sorted_cons] at hs2
  obtain ⟨hsnd, _⟩ := hs2
  have rab : timeDescRel a b := hfst b (by simp)
  have rac : timeDescRel a c := hfst c (by simp)
  have rbc : timeDescRel b c := hsnd c (by simp)
  have hmemS : ∀ x ∈ ([a, b, c] : List LogStatus), x ∈ ([sa, sb, sc] : List LogStatus) :=
    fun x hx => hp.mem_iff.mp hx
  have htime : ∀ x ∈ ([a, b, c] : List LogStatus), x.lastmodifed ≤ sc.lastmodifed := by
    intro x hx
    rcases (by simpa using hmemS x hx) with h | h | h
    · rw [h]; exact le_of_lt hac
    · rw [h]; exact le_of_lt hbc
    · rw [h]
  have hca : a = sc := by
    have hcmem : sc ∈ ([a, b, c] : List LogStatus) := hp.mem_iff.mpr (by simp)
    rcases (by simpa using hcmem) with h | h | h
    · exact h.symm
    · exfalso
      have h1 : sc.lastmodifed ≤ a.lastmodifed := by rw [h]; exact rab
      have h2 : a.lastmodifed ≤ sc.lastmodifed := htime a (by simp)
      have ha : a.lastmodifed = sc.lastmodifed := le_antisymm h2 h1
      have hanec : a ≠ sc := by
        intro hEq
        have hEq2 : a = b := hEq.trans h
        rw [hEq2] at hnd
        simp [List.nodup_cons] at hnd
      rcases (by simpa using hmemS a (by simp)) with h' | h' | h'
      · rw [h'] at ha; exact absurd ha (ne_of_lt hac)
      · rw [h'] at ha; exact absurd ha (ne_of_lt hbc)
      · exact hanec h'
    · exfalso
      have h1 : sc.lastmodifed ≤ a.lastmodifed := by rw [h]; exact rac
      have h2 : a.lastmodifed ≤ sc.lastmodifed := htime a (by simp)
      have ha : a.lastmodifed = sc.lastmodifed := le_antisymm h2 h1
      have hanec : a ≠ sc := by
        intro hEq
        have hEq2 : a = c := hEq.trans h
        rw [hEq2] at hnd
        simp [List.nodup_cons] at hnd
      rcases (by simpa using hmemS a (by simp)) with h' | h' | h'
      · rw [h'] at ha; exact absurd ha (ne_of_lt hac)
      · rw [h'] at ha; exact absurd ha (ne_of_lt hbc)
      · exact hanec h'
  rw [hca] at hp ⊢
  have hp2 : ([b, c] : List LogStatus).Perm [sa, sb] := by
    have hx : ([sa, sb, sc] : List LogStatus).Perm (sc :: [sa, sb]) := by
      have : ([sa, sb] ++ [sc] : List LogStatus).Perm ([sc] ++ [sa, sb]) :=
        List.perm_append_comm
      simpa using this
    exact (hp.trans hx).cons_inv
  have hbmem : b ∈ ([sa, sb] : List LogStatus) := hp2.mem_iff.mp (by simp)
  rcases (by simpa using hbmem) with h | h
  · exfalso
    have hc2 : ([c] : List LogStatus).Perm [sb] := by
      rw [h] at hp2
      exact hp2.cons_inv
    have hcb : c = sb := by simpa using hc2
    rw [h, hcb] at rbc
    exact absurd rbc (not_le.mpr hab)
  · rw [h] at hp2
    have hx2 : ([sa, sb] : List LogStatus).Perm (sb :: [sa]) := by
      have : ([sa] ++ [sb] : List LogStatus).Perm ([sb] ++ [sa]) := List.perm_append_comm
      simpa using this
    have hc2 : ([c] : List LogStatus).Perm [sa] := (hp2.trans hx2).cons_inv
    have hcc : c = sa := by simpa using hc2
    rw [h, hcc]

/-- C9: expanding a host returns its file nodes sorted by
last-modified time descending; the sort is applied after the filename
filter.  With three post-filter descriptors of strictly increasing
timestamps, in whatever order the listing produced them, the children
come back in reverse-chronological order. -/
theorem c9_children_sorted_desc (hn : String) (cfg : DavConfig) (el : LogItemM)
    (filter : String) (jsDate : String → Int) (listings : String → List ResponseEntry)
    (sa sb sc : LogStatus)
    (hel : el.hostname = hn)
    (hfil : (applyFilter filter (parseResponse jsDate (listings hn))).Perm [sa, sb, sc])
    (hab : sa.lastmodifed < sb.lastmodifed) (hbc : sb.lastmodifed < sc.lastmodifed) :
    getChildren [(hn, cfg)] filter jsDate listings (some el)
      = Except.ok [toFileItem hn sc, toFileItem hn sb, toFileItem hn sa] := by
  have hget : jsMapGet [(hn, cfg)] hn = some cfg := by
    simp [jsMapGet, List.find?]
  simp only [getChildren, List.isEmpty, Bool.false_eq_true, if_false, hel, hget]
  rw [sortByTimeDesc_three _ sa sb sc hfil hab hbc]
  simp [toFileItem]

/-- C9 witness: a listing producing timestamps 5, 9, 1 comes back
ordered 9, 5, 1. -/
theorem c9_children_sorted_desc_witness :
    (({ name := "dev01", type := "host", location := "dev01.demandware.net"
      , hostname := "dev01.demandware.net" } : LogItemM).hostname = "dev01.demandware.net") ∧
    getChildren [("dev01.demandware.net", { hostname := "dev01.demandware.net", root := "/r" })]
      "" (fun s => (s.length : Int))
      (fun _ =>
        [ { displayname := some "warn.log", href := some "/w", getlastmodified := some "aaaaa"
          , getcontentlength := some "1" }
        , { displayname := some "error.log", href := some "/e"
          , getlastmodified := some "aaaaaaaaa", getcontentlength := some "2" }
        , { displayname := some "info.log", href := some "/i", getlastmodified := some "a"
          , getcontentlength := some "3" } ])
      (some { name := "dev01", type := "host", location := "dev01.demandware.net"
            , hostname := "dev01.demandware.net" })
      = Except.ok
        [ toFileItem "dev01.demandware.net"
            { filename := "error.log", lastmodifed := 9, filePath := "/e"
            , length := JSNumber.num 2 }
        , toFileItem "dev01.demandware.net"
            { filename := "warn.log", lastmodifed := 5, filePath := "/w"
            , length := JSNumber.num 1 }
        , toFileItem "dev01.demandware.net"
            { filename := "info.log", lastmodifed := 1, filePath := "/i"
            , length := JSNumber.num 3 } ] :=
  ⟨rfl,
    c9_children_sorted_desc "dev01.demandware.net"
      { hostname := "dev01.demandware.net", root := "/r" }
      { name := "dev01", type := "host", location := "dev01.demandware.net"
      , hostname := "dev01.demandware.net" }
      "" (fun s => (s.length : Int))
      (fun _ =>
        [ { displayname := some "warn.log", href := some "/w", getlastmodified := some "aaaaa"
          , getcontentlength := some "1" }
        , { displayname := some "error.log", href := some "/e"
          , getlastmodified := some "aaaaaaaaa", getcontentlength := some "2" }
        , { displayname := some "info.log", href := some "/i", getlastmodified := some "a"
          , getcontentlength := some "3" } ])
      { filename := "info.log", lastmodifed := 1, filePath := "/i", length := JSNumber.num 3 }
      { filename := "warn.log", lastmodifed := 5, filePath := "/w", length := JSNumber.num 1 }
      { filename := "error.log", lastmodifed := 9, filePath := "/e", length := JSNumber.num 2 }
      rfl (by decide) (by decide) (by decide)⟩

/-! ## Filename normalization (C5) -/

/-- Letters of the literal `appserver`. -/
def appLetters : List Char := ['a', 'p', 'p', 's', 'e', 'r', 'v', 'e', 'r']

theorem appserverChars_eq : appserverChars = '-' :: appLetters := rfl

/-- Case-insensitive occurrence of `blade` anywhere in the list.  A
qualifier match needs `blade` right after its leading dash, so a name
with no `blade` occurrence can never start or continue a match. -/
def containsBladeCI : List Char → Bool
  | [] => false
  | c :: cs => (startsWithCI bladeChars (c :: cs)).isSome || containsBladeCI cs

/-- A well-formed per-instance qualifier: dash, `blade` in any case,
one or two digits, dash, one or two digits, dash, `appserver` in any
case — the shape quantified by the claim. -/
def IsQual (q : List Char) : Prop :=
  ∃ (bl ds1 ds2 ap : List Char),
    startsWithCI bladeChars bl = some [] ∧
    (ds1.length = 1 ∨ ds1.length = 2) ∧ (∀ c ∈ ds1, isDigitCh c = true) ∧
    (ds2.length = 1 ∨ ds2.length = 2) ∧ (∀ c ∈ ds2, isDigitCh c = true) ∧
    startsWithCI appLetters ap = some [] ∧
    q = '-' :: (bl ++ (ds1 ++ '-' :: (ds2 ++ '-' :: ap)))

theorem dropUpTo2Digits_digits (ds W : List Char)
    (hlen : ds.length = 1 ∨ ds.length = 2) (hdig : ∀ c ∈ ds, isDigitCh c = true) :
    dropUpTo2Digits (ds ++ '-' :: W) = '-' :: W := by
  have hdash : isDigitCh '-' = false := by decide
  rcases hlen with h1 | h2
  · obtain ⟨d, rfl⟩ := List.length_eq_one.mp h1
    have hd : isDigitCh d = true := hdig d (by simp)
    simp [dropUpTo2Digits, hd, hdash]
  · obtain ⟨d, e, rfl⟩ := List.length_eq_two.mp h2
    have hd : isDigitCh d = true := hdig d (by simp)
    have he : isDigitCh e = true := hdig e (by simp)
    simp [dropUpTo2Digits, hd, he]

/-- A well-formed qualifier at the head of the input is matched and
consumed exactly, whatever follows it. -/
theorem matchQualAt_isQual (q rest : List Char) (hq : IsQual q) :
    matchQualAt (q ++ rest) = some rest := by
  obtain ⟨bl, ds1, ds2, ap, hbl, hd1len, hd1dig, hd2len, hd2dig, hap, hqeq⟩ := hq
  subst hqeq
  have hshape : (('-' :: (bl ++ (ds1 ++ '-' :: (ds2 ++ '-' :: ap)))) ++ rest)
      = '-' :: (bl ++ (ds1 ++ '-' :: (ds2 ++ '-' :: (ap ++ rest))))  := by
    simp [List.append_assoc]
  rw [hshape]
  have h1 : startsWithCI bladeChars (bl ++ (ds1 ++ '-' :: (ds2 ++ '-' :: (ap ++ rest))))
      = some (ds1 ++ '-' :: (ds2 ++ '-' :: (ap ++ rest))) :=
    startsWithCI_append bladeChars bl _ hbl
  have h2 : dropUpTo2Digits (ds1 ++ '-' :: (ds2 ++ '-' :: (ap ++ rest)))
      = '-' :: (ds2 ++ '-' :: (ap ++ rest)) :=
    dropUpTo2Digits_digits ds1 _ hd1len hd1dig
  have h3 : dropUpTo2Digits (ds2 ++ '-' :: (ap ++ rest)) = '-' :: (ap ++ rest) :=
    dropUpTo2Digits_digits ds2 _ hd2len hd2dig
  have h4 : startsWithCI appserverChars ('-' :: (ap ++ rest)) = some rest := by
    rw [appserverChars_eq]
    have hdd : eqCI '-' '-' = true := by decide
    simp only [startsWithCI, hdd, if_true]
    exact startsWithCI_append appLetters ap rest hap
  simp only [matchQualAt, h1, h2, h3, h4]

/-- If a letters-only pattern matches across an appended dash, it
already matches before the dash. -/
theorem swci_letters_crossing (pat : List Char) (hpat : ∀ p ∈ pat, eqCI '-' p = false) :
    ∀ (l r' x : List Char), startsWithCI pat (l ++ '-' :: r') = some x →
      startsWithCI pat l ≠ none := by
  induction pat with
  | nil => intro l r' x _; simp [startsWithCI]
  | cons p ps ih =>
    intro l r' x hsw
    cases l with
    | nil =>
      exfalso
      have hd : eqCI '-' p = false := hpat p (by simp)
      simp [startsWithCI, hd] at hsw
    | cons c cs =>
      simp only [List.cons_append, startsWithCI] at hsw ⊢
      by_cases hc : eqCI c p = true
      · rw [if_pos hc] at hsw ⊢
        exact ih (fun y hy => hpat y (by simp [hy])) cs r' x hsw
      · rw [if_neg (by simpa using hc)] at hsw
        exact absurd hsw (by simp)

theorem containsBlade_head (l : List Char) (h : containsBladeCI l = false) :
    startsWithCI bladeChars l = none := by
  cases l with
  | nil => rfl
  | cons c cs =>
    simp only [containsBladeCI, Bool.or_eq_false_iff] at h
    cases hsw : startsWithCI bladeChars (c :: cs) with
    | none => rfl
    | some x => rw [hsw] at h; simp at h

/-- Scanning over a `blade`-free segment copies it unchanged when the
remainder starts with a dash. -/
theorem stripFuel_append_noBlade :
    ∀ (xs : List Char) (f : Nat) (r' : List Char),
      containsBladeCI xs = false → (xs ++ '-' :: r').length ≤ f →
      stripQualFuel f (xs ++ '-' :: r')
        = xs ++ stripQualFuel ('-' :: r').length ('-' :: r') := by
  intro xs
  induction xs with
  | nil =>
    intro f r' _ hf
    simpa using stripQualFuel_congr f ('-' :: r') ('-' :: r').length (by simpa using hf)
      (le_refl _)
  | cons c cs ih =>
    intro f r' hnb r_hf
    cases f with
    | zero => simp at r_hf
    | succ a =>
      simp only [containsBladeCI, Bool.or_eq_false_iff] at hnb
      have hcs : startsWithCI bladeChars cs = none := by
        cases cs with
        | nil => rfl
        | cons c2 cs2 => exact containsBlade_head (c2 :: cs2) hnb.2
      have hcross : startsWithCI bladeChars (cs ++ '-' :: r') = none := by
        cases hsw : startsWithCI bladeChars (cs ++ '-' :: r') with
        | none => rfl
        | some x =>
          exact absurd hcs (swci_letters_crossing bladeChars (by decide) cs r' x hsw)
      have hnone : matchQualAt (c :: (cs ++ '-' :: r')) = none := by
        unfold matchQualAt
        split
        next r1 heq =>
          injection heq with hc1 hc2
          rw [← hc2, hcross]
        next => rfl
      have hstep : ((c :: cs) ++ '-' :: r') = c :: (cs ++ '-' :: r') := rfl
      rw [hstep]
      simp only [stripQualFuel, hnone]
      rw [ih a r' hnb.2 (by simp only [List.length_cons, List.length_append] at r_hf ⊢; omega)]
      rfl

/-- The stripping scan leaves a `blade`-free base untouched and
continues after it. -/
theorem stripQualAux_append_noBlade (xs r' : List Char)
    (h : containsBladeCI xs = false) :
    stripQualAux (xs ++ '-' :: r') = xs ++ stripQualAux ('-' :: r') :=
  stripFuel_append_noBlade xs (xs ++ '-' :: r').length r' h (le_refl _)

/-- A successful match at the head reduces the scan to the rest. -/
theorem stripQualAux_match (c : Char) (cs rest : List Char)
    (hm : matchQualAt (c :: cs) = some rest) :
    stripQualAux (c :: cs) = stripQualAux rest := by
  unfold stripQualAux
  simp only [List.length_cons, stripQualFuel, hm]
  exact stripQualFuel_congr cs.length rest rest.length
    (by have := matchQualAt_length _ _ hm; simp only [List.length_cons] at this; omega)
    (le_refl _)

theorem isExactLead_self_append : ∀ (p t : List Char), isExactLead p (p ++ t) = true := by
  intro p
  induction p with
  | nil => intro t; rfl
  | cons c cs ih => intro t; simp [isExactLead, ih]

/-- C5 counterexample: the claim quantifies over every base.  For the
base `a-blade1-1-appserver` — which itself contains a qualifier — the
filename `a-blade1-1-appserver-blade1-1-appserver.log` parses to
`a.log`, not `<base>.log`; and a filename whose `.log` suffix is
upper-case is not retained at all (`endsWith('.log')` is
case-sensitive), so no descriptor exists for it. -/
theorem c5_counterexample :
    (parseResponse (fun _ => 0)
      [{ displayname := some "a-blade1-1-appserver-blade1-1-appserver.log", href := some "/x"
       , getlastmodified := none, getcontentlength := none }]).map (fun st => st.filename)
      = ["a.log"] ∧
    ("a.log" : String) ≠ "a-blade1-1-appserver.log" ∧
    parseResponse (fun _ => 0)
      [{ displayname := some "B-BLADE1-1-APPSERVER.LOG", href := some "/x"
       , getlastmodified := none, getcontentlength := none }] = [] := by
  decide

/-- C5 amended: for every filename `<base><qualifier>.log` where the
qualifier is dash, `blade`, 1-2 digits, dash, 1-2 digits, dash,
`appserver` with the letters in any case, the lower-case `.log` suffix
(retention by `endsWith` is case-sensitive), and a base that contains
no occurrence of `blade` in any case (in particular no qualifier of
its own — the code's removal pattern even allows 0-2 digits), the
parsed descriptor's filename is `<base>.log`. -/
theorem c5_filename_normalization (base q : List Char) (href lm cl : Option String)
    (jsDate : String → Int) (es : List ResponseEntry)
    (hbase : containsBladeCI base = false) (hq : IsQual q) :
    parseResponse jsDate
      ({ displayname := some ⟨base ++ (q ++ ".log".data)⟩, href := href
       , getlastmodified := lm, getcontentlength := cl } :: es)
      = { filename := ⟨base ++ ".log".data⟩, lastmodifed := jsDate (jsString lm)
        , filePath := jsString href, length := jsNumber cl } :: parseResponse jsDate es := by
  have hlog : jsEndsWith ⟨base ++ (q ++ ".log".data)⟩ ".log" = true := by
    simp only [jsEndsWith, endsWithList]
    rw [List.reverse_append, List.reverse_append, List.append_assoc]
    exact isExactLead_self_append _ _
  have hstrip : stripQualifiers ⟨base ++ (q ++ ".log".data)⟩ = ⟨base ++ ".log".data⟩ := by
    obtain ⟨bl, ds1, ds2, ap, hbl, hd1len, hd1dig, hd2len, hd2dig, hap, hqeq⟩ := hq
    have hmq : matchQualAt (q ++ ".log".data) = some ".log".data :=
      matchQualAt_isQual q ".log".data
        ⟨bl, ds1, ds2, ap, hbl, hd1len, hd1dig, hd2len, hd2dig, hap, hqeq⟩
    have hqt : q ++ ".log".data
        = '-' :: ((bl ++ (ds1 ++ '-' :: (ds2 ++ '-' :: ap))) ++ ".log".data) := by
      rw [hqeq]; rfl
    have h1 : stripQualAux (base ++ (q ++ ".log".data))
        = base ++ stripQualAux (q ++ ".log".data) := by
      rw [hqt]
      exact stripQualAux_append_noBlade base _ hbase
    have h2 : stripQualAux (q ++ ".log".data) = ".log".data := by
      rw [hqt] at hmq ⊢
      rw [stripQualAux_match _ _ _ hmq]
      decide
    have hunfold : stripQualifiers ⟨base ++ (q ++ ".log".data)⟩
        = ⟨stripQualAux (base ++ (q ++ ".log".data))⟩ := rfl
    rw [hunfold, h1, h2]
  simp only [parseResponse, List.filterMap_cons, hlog, if_true, hstrip]

/-- C5 witness: the amended statement evaluated on
`error-BlAdE1-23-ApPsErVeR.log`. -/
theorem c5_filename_normalization_witness :
    containsBladeCI "error".data = false ∧
    IsQual "-BlAdE1-23-ApPsErVeR".data ∧
    parseResponse (fun _ => 7)
      [{ displayname := some ⟨"error".data ++ ("-BlAdE1-23-ApPsErVeR".data ++ ".log".data)⟩
       , href := some "/x", getlastmodified := some "lm", getcontentlength := some "5" }]
      = [{ filename := ⟨"error".data ++ ".log".data⟩
         , lastmodifed := (fun (_ : String) => (7 : Int)) (jsString (some "lm"))
         , filePath := jsString (some "/x"), length := jsNumber (some "5") }] :=
  ⟨by decide,
    ⟨"BlAdE".data, ['1'], ['2', '3'], "ApPsErVeR".data, by decide, Or.inl (by decide),
      by decide, Or.inr (by decide), by decide, by decide, by decide⟩,
    c5_filename_normalization "error".data "-BlAdE1-23-ApPsErVeR".data (some "/x") (some "lm")
      (some "5") (fun _ => 7) [] (by decide)
      ⟨"BlAdE".data, ['1'], ['2', '3'], "ApPsErVeR".data, by decide, Or.inl (by decide),
        by decide, Or.inr (by decide), by decide, by decide, by decide⟩⟩

/-! ## Transformer lemmas (C8) -/

theorem s2Fuel_nil (u : List Char → List Char) (root : List Char) (f : Nat) :
    s2Fuel u root f [] = [] := by
  cases f <;> simp [s2Fuel]

/-- Pass 2 does not depend on the fuel, as long as the fuel covers the
input length. -/
theorem s2Fuel_congr (u : List Char → List Char) (root : List Char) :
    ∀ (f : Nat) (l : List Char) (f' : Nat), l.length ≤ f → l.length ≤ f' →
      s2Fuel u root f l = s2Fuel u root f' l := by
  intro f
  induction f with
  | zero =>
    intro l f' hf _
    have : l = [] := List.length_eq_zero.mp (Nat.le_zero.mp hf)
    subst this
    simp [s2Fuel_nil]
  | succ a ih =>
    intro l f' hf hf'
    cases l with
    | nil => simp [s2Fuel_nil]
    | cons c cs =>
      cases f' with
      | zero => simp at hf'
      | succ b =>
        simp only [List.length_cons] at hf hf'
        by_cases hc : (c == '\t') = true
        · simp only [s2Fuel, hc, if_true]
          cases hsw : startsWithCI atPat cs with
          | none => rw [ih cs b (by omega) (by omega)]
          | some r1 =>
            have hr1 : r1.length < cs.length := by
              have := startsWithCI_length atPat cs r1 hsw
              simp [atPat] at this
              omega
            cases hfc : s2FindColon [] r1 with
            | none =>
              dsimp only
              rw [hfc]
              rw [ih cs b (by omega) (by omega)]
            | some pr =>
              obtain ⟨p1, p2, rest⟩ := pr
              have hrest : rest.length < r1.length := s2FindColon_length r1 [] p1 p2 rest hfc
              dsimp only
              rw [hfc]
              dsimp only
              rw [ih rest b (by omega) (by omega)]
        · simp only [s2Fuel, hc, Bool.false_eq_true, if_false]
          rw [ih cs b (by omega) (by omega)]

/-- Pass 2 copies a tab-free segment unchanged and continues after
it. -/
theorem s2Fuel_append (u : List Char → List Char) (root : List Char) :
    ∀ (xs : List Char) (f : Nat) (ys : List Char), hasTab xs = false →
      (xs ++ ys).length ≤ f →
      s2Fuel u root f (xs ++ ys) = xs ++ s2Fuel u root ys.length ys := by
  intro xs
  induction xs with
  | nil =>
    intro f ys _ hf
    simpa using s2Fuel_congr u root f ys ys.length (by simpa using hf) (le_refl _)
  | cons c cs ih =>
    intro f ys hnt hf
    cases f with
    | zero => simp at hf
    | succ a =>
      simp only [hasTab, Bool.or_eq_false_iff] at hnt
      simp only [List.cons_append, s2Fuel, hnt.1, Bool.false_eq_true, if_false,
        List.append_eq]
      rw [ih a ys hnt.2 (by simp only [List.length_append, List.length_cons] at hf ⊢; omega)]

theorem s2Scan_append (u : List Char → List Char) (root : List Char) (xs ys : List Char)
    (h : hasTab xs = false) :
    s2Scan u root (xs ++ ys) = xs ++ s2Scan u root ys :=
  s2Fuel_append u root xs (xs ++ ys).length ys h (le_refl _)

theorem headIsSpace_append (xs ys : List Char) (hx : headIsSpace xs = false)
    (hy : headIsSpace ys = false) : headIsSpace (xs ++ ys) = false := by
  cases xs with
  | nil => simpa using hy
  | cons c cs => simpa [headIsSpace] using hx

theorem hasDoubleSpace_of_cons (c : Char) (l : List Char)
    (h : hasDoubleSpace (c :: l) = false) : hasDoubleSpace l = false := by
  cases l with
  | nil => rfl
  | cons c2 cs =>
    simp only [hasDoubleSpace, Bool.or_eq_false_iff] at h
    exact h.2

/-- Pass 3 copies a segment with no double space unchanged, provided
no double space is created at the boundary. -/
theorem s3Scan_append :
    ∀ (xs ys : List Char), hasDoubleSpace xs = false →
      (headIsSpace ys = false ∨ lastIsSpace xs = false) →
      s3Scan (xs ++ ys) = xs ++ s3Scan ys := by
  intro xs
  induction xs with
  | nil => intro ys _ _; rfl
  | cons c t ih =>
    intro ys hds hbd
    cases t with
    | nil =>
      cases ys with
      | nil => simp [s3Scan]
      | cons y ys2 =>
        have hcy : (c == ' ' && y == ' ') = false := by
          rcases hbd with hy | hc
          · simp only [headIsSpace] at hy
            simp [hy]
          · simp only [lastIsSpace] at hc
            simp [hc]
        simp only [List.cons_append, List.nil_append, s3Scan, hcy, Bool.false_eq_true,
          if_false]
    | cons c2 t2 =>
      have hcc : (c == ' ' && c2 == ' ') = false := by
        simp only [hasDoubleSpace, Bool.or_eq_false_iff] at hds
        exact hds.1
      have hds2 : hasDoubleSpace (c2 :: t2) = false := hasDoubleSpace_of_cons c _ hds
      have hbd2 : headIsSpace ys = false ∨ lastIsSpace (c2 :: t2) = false := by
        rcases hbd with hy | hc
        · exact Or.inl hy
        · exact Or.inr (by simpa [lastIsSpace] using hc)
      have hstep : ((c :: c2 :: t2) ++ ys) = c :: ((c2 :: t2) ++ ys) := rfl
      rw [hstep]
      have hstep2 : ((c2 :: t2) ++ ys) = c2 :: (t2 ++ ys) := rfl
      rw [hstep2]
      simp only [s3Scan, hcc, Bool.false_eq_true, if_false]
      rw [← hstep2, ih ys hds2 hbd2]
      rfl

/-- The round-trip sample input of the claim. -/
def c8Input : String :=
  "[Thu Jan 01 1970 00:00:00 GMT] hello  world\n\tat app/controllers/Foo.js:12 (native)"

/-- The captured timestamp group of the sample. -/
def c8Stamp : List Char := "Thu Jan 01 1970 00:00:00 GMT".data

/-- The resolved stack-frame path of the sample (root joined onto the
frame path). -/
def c8Path : List Char := "/Sites/Logs/app/controllers/Foo.js".data

/-- C8: applying the three transformation passes in source order to the
sample input with root `/Sites/Logs` yields exactly the block
`[<relative>/<date>]` for the bracketed timestamp, a newline in place
of the double space between `hello` and `world`, and the stack line
rewritten to the rendered location of
`/Sites/Logs/app/controllers/Foo.js` at line `12`.  The external
renderers (`timeago`, `Date` stringification, `Uri.toString`) are
arbitrary functions whose outputs contain no tab and no double space
and do not start with a space. -/
theorem c8_transformer_sample (rel date uriS : List Char → List Char)
    (hRt : hasTab (rel c8Stamp) = false) (hRs : hasDoubleSpace (rel c8Stamp) = false)
    (hDt : hasTab (date c8Stamp) = false) (hDs : hasDoubleSpace (date c8Stamp) = false)
    (hUs : hasDoubleSpace (uriS c8Path) = false) (hUh : headIsSpace (uriS c8Path) = false) :
    (transformLog rel date uriS "/Sites/Logs" c8Input).data
      = "\n\n[".data ++ rel c8Stamp ++ "/".data ++ date c8Stamp
        ++ "]\nhello\nworld\n\tat ".data ++ uriS c8Path ++ "#12 (native)".data := by
  have h0 : (transformLog rel date uriS "/Sites/Logs" c8Input).data
      = s3Scan (s2Scan uriS "/Sites/Logs".data (s1Scan rel date c8Input.data)) := rfl
  rw [h0]
  have hs1 : s1Scan rel date c8Input.data
      = "\n\n[".data ++ (rel c8Stamp ++ ("/".data ++ (date c8Stamp
        ++ ("]\nhello  world\n".data
          ++ "\tat app/controllers/Foo.js:12 (native)".data)))) := rfl
  rw [hs1]
  rw [s2Scan_append uriS _ _ _ (by decide)]
  rw [s2Scan_append uriS _ _ _ hRt]
  rw [s2Scan_append uriS _ _ _ (by decide)]
  rw [s2Scan_append uriS _ _ _ hDt]
  rw [s2Scan_append uriS _ _ _ (by decide)]
  rw [show s2Scan uriS "/Sites/Logs".data "\tat app/controllers/Foo.js:12 (native)".data
      = "\tat ".data ++ (uriS c8Path ++ "#12 (native)".data) from rfl]
  rw [show ("]\nhello  world\n".data
        ++ ("\tat ".data ++ (uriS c8Path ++ "#12 (native)".data)))
      = "]\nhello".data
        ++ (' ' :: ' ' :: ("world\n\tat ".data ++ (uriS c8Path ++ "#12 (native)".data)))
    from rfl]
  rw [s3Scan_append "\n\n[".data _ (by decide) (Or.inr (by decide))]
  rw [s3Scan_append (rel c8Stamp) _ hRs (Or.inl (by rfl))]
  rw [s3Scan_append "/".data _ (by decide) (Or.inr (by decide))]
  rw [s3Scan_append (date c8Stamp) _ hDs (Or.inl (by rfl))]
  rw [s3Scan_append "]\nhello".data _ (by decide) (Or.inr (by decide))]
  rw [show s3Scan (' ' :: ' ' :: ("world\n\tat ".data ++ (uriS c8Path ++ "#12 (native)".data)))
      = '\n' :: s3Scan ("world\n\tat ".data ++ (uriS c8Path ++ "#12 (native)".data))
    from by simp [s3Scan]]
  rw [s3Scan_append "world\n\tat ".data _ (by decide)
    (Or.inl (by exact headIsSpace_append _ _ hUh (by rfl)))]
  rw [s3Scan_append (uriS c8Path) _ hUs (Or.inl (by rfl))]
  rw [show s3Scan "#12 (native)".data = "#12 (native)".data from rfl]
  simp only [List.append_assoc]
  rfl

/-- Concrete renderer standing in for `timeago().format`. -/
def c8Rel (_ : List Char) : List Char := "51 years ago".data

/-- Concrete renderer standing in for `Date` stringification. -/
def c8Date (g : List Char) : List Char := g

/-- Concrete renderer standing in for `Uri.parse(...).toString()`. -/
def c8Uri (p : List Char) : List Char := "file://".data ++ p

/-- C8 witness: the transformer sample evaluated with concrete
renderers. -/
theorem c8_transformer_sample_witness :
    hasTab (c8Rel c8Stamp) = false ∧ hasDoubleSpace (c8Rel c8Stamp) = false ∧
    hasTab (c8Date c8Stamp) = false ∧ hasDoubleSpace (c8Date c8Stamp) = false ∧
    hasDoubleSpace (c8Uri c8Path) = false ∧ headIsSpace (c8Uri c8Path) = false ∧
    (transformLog c8Rel c8Date c8Uri "/Sites/Logs" c8Input).data
      = "\n\n[".data ++ c8Rel c8Stamp ++ "/".data ++ c8Date c8Stamp
        ++ "]\nhello\nworld\n\tat ".data ++ c8Uri c8Path ++ "#12 (native)".data :=
  ⟨by decide, by decide, by decide, by decide, by decide, by decide,
    c8_transformer_sample c8Rel c8Date c8Uri (by decide) (by decide) (by decide) (by decide)
      (by decide) (by decide)⟩
